import Mathlib

/-!
Verification development for the LS-Dyna keyfile converter
(`src/LSDynaToRaw/LSDynaToRaw.cpp`).

The C++ source is shallowly embedded as executable Lean definitions:

* the character stream is a `List Char`; `std::istream::peek`/`get`/`ignore`
  become list pattern matching;
* `double` is modelled as `Rat`: the program performs no floating-point
  arithmetic — every coordinate is parsed once, stored and copied verbatim,
  and connectivity values are converted to `int` by truncation — so exact
  rational semantics agrees with IEEE semantics on every control path;
* node/element identifiers are `Int` (the `Nodes::nids` vector stores them
  as `double`, but every stored value is an exactly representable `int`);
* `std::map` becomes an association list with insert-or-assign semantics
  (`mapInsert` / `mapLookup`); iteration order over these maps is never
  observed by the embedded operations;
* C++ exceptions become `Except` / `Option` results; loops of the parser
  that the source does not bound (skip-to-newline, part-name accumulation,
  the main keyword loop) take an explicit fuel argument, with `none`
  denoting a run that exhausts the fuel.
-/

/-! ## Character classes (locale "" over ASCII input) -/

def isDigitChar (c : Char) : Bool := c.isDigit

/-- `std::isspace(c, loc)` for the classic locale on ASCII input. -/
def isSpaceLoc (c : Char) : Bool :=
  c == ' ' || c == '\t' || c == '\n' || c == '\x0b' || c == '\x0c' || c == '\r'

/-! ## Numeric literal conversion (`boost::lexical_cast`) -/

def digitsVal (l : List Char) : Nat :=
  l.foldl (fun a c => a * 10 + (c.toNat - 48)) 0

/-- `boost::lexical_cast<int>`: an optional sign followed by a nonempty
digit run, consuming the whole string. -/
def parseIntChars : List Char → Option Int
  | '-' :: r => if r ≠ [] ∧ r.all isDigitChar then some (-(Int.ofNat (digitsVal r))) else none
  | '+' :: r => if r ≠ [] ∧ r.all isDigitChar then some (Int.ofNat (digitsVal r)) else none
  | l => if l ≠ [] ∧ l.all isDigitChar then some (Int.ofNat (digitsVal l)) else none

def parseIntLit (s : String) : Option Int := parseIntChars s.data

def spanDigitsTake (l : List Char) : List Char := l.takeWhile isDigitChar

def spanDigitsDrop (l : List Char) : List Char := l.dropWhile isDigitChar

/-- Mantissa of a floating literal: digits, optionally a point followed by
digits, at least one digit overall.  Returns the exact value and the rest
of the string (exponent part). -/
def parseMantissa (l : List Char) : Option (Rat × List Char) :=
  let ip := spanDigitsTake l
  let r1 := spanDigitsDrop l
  match r1 with
  | '.' :: r2 =>
    let fp := spanDigitsTake r2
    let r3 := spanDigitsDrop r2
    if ip = [] ∧ fp = [] then none
    else some ((digitsVal ip : Rat) + (digitsVal fp : Rat) / ((10 : Rat) ^ fp.length), r3)
  | _ => if ip = [] then none else some ((digitsVal ip : Rat), r1)

/-- Exponent part after the `e`/`E` marker: optional sign, nonempty digits. -/
def parseExpChars : List Char → Option Int
  | '+' :: r => if r ≠ [] ∧ r.all isDigitChar then some (Int.ofNat (digitsVal r)) else none
  | '-' :: r => if r ≠ [] ∧ r.all isDigitChar then some (-(Int.ofNat (digitsVal r))) else none
  | l => if l ≠ [] ∧ l.all isDigitChar then some (Int.ofNat (digitsVal l)) else none

/-- `boost::lexical_cast<double>`, with the value carried exactly as a
rational. -/
def parseDoubleChars (l : List Char) : Option Rat :=
  let sgn : Rat × List Char :=
    match l with
    | '-' :: r => (-1, r)
    | '+' :: r => (1, r)
    | _ => (1, l)
  match parseMantissa sgn.2 with
  | none => none
  | some mr =>
    match mr.2 with
    | [] => some (sgn.1 * mr.1)
    | e :: r =>
      if e = 'e' ∨ e = 'E' then
        match parseExpChars r with
        | some ex => some (sgn.1 * mr.1 * (10 : Rat) ^ ex)
        | none => none
      else none

def parseDoubleLit (s : String) : Option Rat := parseDoubleChars s.data

/-- Conversion `double` → `int` (truncation toward zero), used for the
connectivity slots read through `lexical_cast<double>`. -/
def ratTrunc (q : Rat) : Int :=
  if 0 ≤ q.num then Int.ofNat (q.num.toNat / q.den)
  else -(Int.ofNat ((-q.num).toNat / q.den))

/-! ## Lexer symbols -/

inductive SymbolType where
  | whitespace
  | newline
  | comment
  | comma
  | asterisk
  | word
  | number
  | endOfFile
deriving DecidableEq

structure LexerSymbol where
  type : SymbolType
  symbol : String
deriving DecidableEq

/-! ## The token-accepting routines of `KeyFileLexer`

Each of them has already consumed the dispatch character `c`
(`S.symbol += stream.get()`), and returns the finished symbol together
with the remaining stream. -/

/-- The `if (stream.peek() == '.')` step of `AcceptNumber`: consume an
optional decimal point. -/
def numDot (l : List Char) : List Char × List Char :=
  match l with
  | '.' :: r => (['.'], r)
  | _ => ([], l)

/-- The `if (peek == 'e' || peek == 'E')` step of `AcceptNumber`: consume an
optional exponent marker. -/
def numEm (l : List Char) : List Char × List Char :=
  match l with
  | e :: r => if e = 'e' ∨ e = 'E' then ([e], r) else ([], l)
  | [] => ([], l)

/-- The `if (peek == '-' || peek == '+')` step of `AcceptNumber`: consume an
optional sign.  The source runs this whether or not an exponent marker was
consumed just before. -/
def numSg (l : List Char) : List Char × List Char :=
  match l with
  | s :: r => if s = '-' ∨ s = '+' then ([s], r) else ([], l)
  | [] => ([], l)

/-- `KeyFileLexer::AcceptNumber`, lines 382-424: leading char, digit run,
optional point, digit run, optional `e`/`E`, optional sign, digit run.
Note that the sign is consumed whenever it follows the second digit run,
whether or not an exponent marker preceded it. -/
def acceptNumber (c : Char) (rest : List Char) : LexerSymbol × List Char :=
  let d1 := spanDigitsTake rest
  let dot := numDot (spanDigitsDrop rest)
  let d2 := spanDigitsTake dot.2
  let em := numEm (spanDigitsDrop dot.2)
  let sg := numSg em.2
  let d3 := spanDigitsTake sg.2
  (⟨.number, String.mk (c :: (d1 ++ dot.1 ++ d2 ++ em.1 ++ sg.1 ++ d3))⟩,
   spanDigitsDrop sg.2)

/-- `KeyFileLexer::AcceptWhitespace`: maximal run of non-newline space
characters after the first one. -/
def acceptWhitespace (c : Char) (rest : List Char) : LexerSymbol × List Char :=
  (⟨.whitespace, String.mk (c :: rest.takeWhile (fun d => d != '\n' && isSpaceLoc d))⟩,
   rest.dropWhile (fun d => d != '\n' && isSpaceLoc d))

/-- `KeyFileLexer::AcceptWord`: maximal run of non-space characters after
the first one. -/
def acceptWord (c : Char) (rest : List Char) : LexerSymbol × List Char :=
  (⟨.word, String.mk (c :: rest.takeWhile (fun d => d != '\n' && !isSpaceLoc d))⟩,
   rest.dropWhile (fun d => d != '\n' && !isSpaceLoc d))

/-- `KeyFileLexer::IgnoreComment`: consume up to and including the next
newline (at end of stream the final `ignore()` is a no-op). -/
def ignoreComment (l : List Char) : List Char :=
  match l.dropWhile (fun d => d != '\n') with
  | [] => []
  | _ :: rest => rest

/-- The `while (c == '$')` comment loop at the start of a line.  Each
iteration consumes at least the `$`, so `length + 1` units of fuel always
suffice; the fuel-exhausted branch is unreachable. -/
def skipCommentsF : Nat → List Char → Nat → List Char × Nat
  | 0, inp, line => (inp, line)
  | f + 1, inp, line =>
    match inp with
    | [] => ([], line)
    | c :: rest =>
      if c = '$' then skipCommentsF f (ignoreComment (c :: rest)) (line + 1)
      else (c :: rest, line)

def skipComments (inp : List Char) (line : Nat) : List Char × Nat :=
  skipCommentsF (inp.length + 1) inp line

/-! ## The lexer -/

/-- State of `KeyFileLexer`: remaining stream, the lexical state
(0 = line start, 1 = mid-line, -1 = after end of file), the last symbol
returned (`GetCurrentSymbol`) and the 1-based line counter
(`GetCurrentLine`). -/
structure KeyFileLexer where
  input : List Char
  state : Int
  currentSymbol : LexerSymbol
  current_line : Nat
deriving DecidableEq

def initLexer (s : String) : KeyFileLexer :=
  ⟨s.data, 0, ⟨.whitespace, ""⟩, 1⟩

/-- `KeyFileLexer::NextSymbol`, lines 217-302.  Note two quirks of the
source preserved here: the `','` case at line start neither consumes the
comma nor changes the state, and the number case leaves the state exactly
as it was (`AcceptNumber` never assigns `state`). -/
def NextSymbol (L : KeyFileLexer) : LexerSymbol × KeyFileLexer :=
  if L.state = 0 then
    let sc := skipComments L.input L.current_line
    match sc.1 with
    | [] =>
      let S : LexerSymbol := ⟨.endOfFile, ""⟩
      (S, ⟨[], -1, S, sc.2⟩)
    | c :: rest =>
      if c = '*' then
        let S : LexerSymbol := ⟨.asterisk, "*"⟩
        (S, ⟨rest, 1, S, sc.2⟩)
      else if c = '\n' then
        let S : LexerSymbol := ⟨.newline, "\n"⟩
        (S, ⟨rest, 0, S, sc.2 + 1⟩)
      else if c = ' ' ∨ c = '\t' ∨ c = '\x0c' ∨ c = '\x0b' then
        let r := acceptWhitespace c rest
        (r.1, ⟨r.2, 1, r.1, sc.2⟩)
      else if c = ',' then
        let S : LexerSymbol := ⟨.comma, ","⟩
        (S, ⟨c :: rest, 0, S, sc.2⟩)
      else if isDigitChar c ∨ c = '-' then
        let r := acceptNumber c rest
        (r.1, ⟨r.2, 0, r.1, sc.2⟩)
      else
        let r := acceptWord c rest
        (r.1, ⟨r.2, 1, r.1, sc.2⟩)
  else if L.state = 1 then
    match L.input with
    | [] =>
      let S : LexerSymbol := ⟨.endOfFile, ""⟩
      (S, ⟨[], -1, S, L.current_line⟩)
    | c :: rest =>
      if c = '\n' then
        let S : LexerSymbol := ⟨.newline, "\n"⟩
        (S, ⟨rest, 0, S, L.current_line + 1⟩)
      else if c = ' ' ∨ c = '\t' ∨ c = '\x0c' ∨ c = '\x0b' then
        let r := acceptWhitespace c rest
        (r.1, ⟨r.2, 1, r.1, L.current_line⟩)
      else if isDigitChar c ∨ c = '-' then
        let r := acceptNumber c rest
        (r.1, ⟨r.2, 1, r.1, L.current_line⟩)
      else
        let r := acceptWord c rest
        (r.1, ⟨r.2, 1, r.1, L.current_line⟩)
  else
    (⟨.endOfFile, ""⟩, L)

/-- The first `n` symbols produced from a lexer. -/
def lexN : Nat → KeyFileLexer → List LexerSymbol
  | 0, _ => []
  | n + 1, L =>
    let r := NextSymbol L
    r.1 :: lexN n r.2

def lexStr (n : Nat) (s : String) : List LexerSymbol := lexN n (initLexer s)

/-! ## The mesh model (`Nodes`, `Elements`, `FiniteElementObject`)

The parallel vectors of the source are only ever pushed to in lockstep, so
they are collapsed into lists of records. -/

structure NodeRec where
  nid : Int
  x : Rat
  y : Rat
  z : Rat
deriving DecidableEq

/-- `Element`: a `std::tuple` of eight `int` connectivity slots. -/
structure Conn where
  n1 : Int
  n2 : Int
  n3 : Int
  n4 : Int
  n5 : Int
  n6 : Int
  n7 : Int
  n8 : Int
deriving DecidableEq

def Conn.toList (c : Conn) : List Int :=
  [c.n1, c.n2, c.n3, c.n4, c.n5, c.n6, c.n7, c.n8]

def connMap (f : Int → Int) (c : Conn) : Conn :=
  ⟨f c.n1, f c.n2, f c.n3, f c.n4, f c.n5, f c.n6, f c.n7, f c.n8⟩

structure ElemRec where
  eid : Int
  pid : Int
  conn : Conn
deriving DecidableEq

inductive ParseError where
  | syntaxError (line : Nat)
  | duplicateElement
  | castError
deriving DecidableEq

/-- `Elements::AddElement`, lines 79-96: reject an already-used element id,
otherwise append. -/
def AddElement (es : List ElemRec) (eid pid : Int) (c : Conn) : Except ParseError (List ElemRec) :=
  if es.any (fun e => e.eid = eid) then .error .duplicateElement
  else .ok (es ++ [⟨eid, pid, c⟩])

/-! ## `std::map<int, _>` as an association list -/

def mapInsert {β : Type} : List (Int × β) → Int → β → List (Int × β)
  | [], k, v => [(k, v)]
  | kv :: m, k, v => if kv.1 = k then (k, v) :: m else kv :: mapInsert m k v

def mapLookup {β : Type} : List (Int × β) → Int → Option β
  | [], _ => none
  | kv :: m, k => if kv.1 = k then some kv.2 else mapLookup m k

/-- `operator[]` read: a missing key yields the value-initialized default
(the map mutation this performs in C++ is never observable through the
embedded operations). -/
def mapLookupD {β : Type} (m : List (Int × β)) (k : Int) (d : β) : β :=
  (mapLookup m k).getD d

/-- `FiniteElementObject`: node list, element list and the two id-to-position
indices, in declaration order. -/
structure Doc where
  nodes : List NodeRec
  elements : List ElemRec
  element_index : List (Int × Nat)
  node_index : List (Int × Nat)
deriving DecidableEq

def emptyDoc : Doc := ⟨[], [], [], []⟩

def nodeIds (D : Doc) : List Int := D.nodes.map NodeRec.nid

/-! ## The block parser (`KeyFile`) -/

/-- `KeyFile` accumulated state: the mesh object, the part-name map and the
per-part element map, in member-declaration order. -/
structure ParserState where
  obj : Doc
  part_names : List (Int × String)
  parts : List (Int × List ElemRec)
deriving DecidableEq

def emptyState : ParserState := ⟨emptyDoc, [], []⟩

/-- `strcmpi`: case-insensitive comparison of the keyword words. -/
def eqCI (a b : String) : Bool := a.data.map Char.toUpper == b.data.map Char.toUpper

/-- The `while (... != NEWLINE) {}` skip at the end of a node record. -/
def skipToNewline : Nat → KeyFileLexer → Option KeyFileLexer
  | 0, _ => none
  | f + 1, L =>
    let r := NextSymbol L
    if r.1.type = .newline then some r.2 else skipToNewline f r.2

/-- `KeyFile::AcceptNode`, lines 567-611.  Errors carry the document as it
stands at the throw (unchanged: the node is added only after all checks). -/
def acceptNode (fuel : Nat) (obj : Doc) (L : KeyFileLexer) :
    Option (Except (ParseError × Doc) (Doc × KeyFileLexer)) :=
  match parseIntLit L.currentSymbol.symbol with
  | none => some (.error (.castError, obj))
  | some nid =>
    let r1 := NextSymbol L
    if r1.1.type = .whitespace ∨ r1.1.type = .comma then
      let r2 := NextSymbol r1.2
      match parseDoubleLit r2.1.symbol with
      | none => some (.error (.castError, obj))
      | some x =>
        let r3 := NextSymbol r2.2
        if r3.1.type = .whitespace ∨ r3.1.type = .comma then
          let r4 := NextSymbol r3.2
          match parseDoubleLit r4.1.symbol with
          | none => some (.error (.castError, obj))
          | some y =>
            let r5 := NextSymbol r4.2
            if r5.1.type = .whitespace ∨ r5.1.type = .comma then
              let r6 := NextSymbol r5.2
              match parseDoubleLit r6.1.symbol with
              | none => some (.error (.castError, obj))
              | some z =>
                match skipToNewline fuel r6.2 with
                | none => none
                | some L7 =>
                  some (.ok (⟨obj.nodes ++ [⟨nid, x, y, z⟩],
                              obj.elements,
                              obj.element_index,
                              mapInsert obj.node_index nid obj.nodes.length⟩, L7))
            else some (.error (.syntaxError r5.2.current_line, obj))
        else some (.error (.syntaxError r3.2.current_line, obj))
    else some (.error (.syntaxError r1.2.current_line, obj))

/-- One connectivity field of an element record: a separator then a number,
converted through `lexical_cast<double>` and truncated to `int`. -/
def readSlot (L : KeyFileLexer) : Except ParseError (Int × KeyFileLexer) :=
  let r1 := NextSymbol L
  if r1.1.type = .whitespace ∨ r1.1.type = .comma then
    let r2 := NextSymbol r1.2
    if r2.1.type = .number then
      match parseDoubleLit r2.1.symbol with
      | none => .error .castError
      | some v => .ok (ratTrunc v, r2.2)
    else .error (.syntaxError r2.2.current_line)
  else .error (.syntaxError r1.2.current_line)

/-- `KeyFile::AcceptElement`, lines 613-665: id, separator, part id, then
eight connectivity fields; the element is added to the object and to the
per-part map.  Errors carry the object and part map as they stand at the
throw. -/
def acceptElement (obj : Doc) (parts : List (Int × List ElemRec)) (L : KeyFileLexer) :
    Except (ParseError × Doc × List (Int × List ElemRec))
           (Doc × List (Int × List ElemRec) × KeyFileLexer) :=
  match parseIntLit L.currentSymbol.symbol with
  | none => .error (.castError, obj, parts)
  | some eid =>
    let r1 := NextSymbol L
    if r1.1.type = .whitespace ∨ r1.1.type = .comma then
      let r2 := NextSymbol r1.2
      if r2.1.type = .number then
        match parseIntLit r2.1.symbol with
        | none => .error (.castError, obj, parts)
        | some pid =>
          match readSlot r2.2 with
          | .error e => .error (e, obj, parts)
          | .ok s1 =>
          match readSlot s1.2 with
          | .error e => .error (e, obj, parts)
          | .ok s2 =>
          match readSlot s2.2 with
          | .error e => .error (e, obj, parts)
          | .ok s3 =>
          match readSlot s3.2 with
          | .error e => .error (e, obj, parts)
          | .ok s4 =>
          match readSlot s4.2 with
          | .error e => .error (e, obj, parts)
          | .ok s5 =>
          match readSlot s5.2 with
          | .error e => .error (e, obj, parts)
          | .ok s6 =>
          match readSlot s6.2 with
          | .error e => .error (e, obj, parts)
          | .ok s7 =>
          match readSlot s7.2 with
          | .error e => .error (e, obj, parts)
          | .ok s8 =>
            let c : Conn := ⟨s1.1, s2.1, s3.1, s4.1, s5.1, s6.1, s7.1, s8.1⟩
            match AddElement obj.elements eid pid c with
            | .error e => .error (e, obj, parts)
            | .ok es' =>
              let obj' : Doc := ⟨obj.nodes, es',
                                 mapInsert obj.element_index eid (es'.length - 1),
                                 obj.node_index⟩
              let pl := mapLookupD parts pid []
              match AddElement pl eid pid c with
              | .error e => .error (e, obj', mapInsert parts pid pl)
              | .ok pl' => .ok (obj', mapInsert parts pid pl', s8.2)
      else .error (.syntaxError r2.2.current_line, obj, parts)
    else .error (.syntaxError r1.2.current_line, obj, parts)

/-- The part-name accumulation loop of `KeyFile::AcceptPart`. -/
def partNameLoop : Nat → String → KeyFileLexer → Option (String × KeyFileLexer)
  | 0, _, _ => none
  | f + 1, acc, L =>
    let r := NextSymbol L
    if r.1.type = .newline then some (acc, r.2)
    else partNameLoop f (acc ++ r.1.symbol) r.2

/-- The skip-until-number loop of `KeyFile::AcceptPart`. -/
def findNumberLoop : Nat → KeyFileLexer → Option (LexerSymbol × KeyFileLexer)
  | 0, _ => none
  | f + 1, L =>
    let r := NextSymbol L
    if r.1.type = .number then some (r.1, r.2) else findNumberLoop f r.2

/-- `KeyFile::AcceptPart`, lines 549-565. -/
def acceptPart (fuel : Nat) (names : List (Int × String)) (L : KeyFileLexer) :
    Option (Except ParseError (List (Int × String) × KeyFileLexer)) :=
  match partNameLoop fuel L.currentSymbol.symbol L with
  | none => none
  | some nm =>
    match findNumberLoop fuel nm.2 with
    | none => none
    | some sl =>
      match parseIntLit sl.1.symbol with
      | none => some (.error .castError)
      | some pid => some (.ok (mapInsert names pid nm.1, sl.2))

/-- The keyword state machine of `KeyFile::Parse`, lines 486-535.
Parser states: 0 = seek keyword, 1 = after asterisk, 2 = NODE block,
3 = ELEMENT block, 4 = PART block.  Errors carry the accumulated state as
it stands at the throw. -/
def parseLoop : Nat → Nat → ParserState → LexerSymbol → KeyFileLexer →
    Option (Except (ParseError × ParserState) ParserState)
  | 0, _, _, _, _ => none
  | fuel + 1, pstate, st, S, L =>
    if S.type = .endOfFile then some (.ok st)
    else if pstate = 0 then
      let p' := if S.type = .asterisk then 1 else 0
      let r := NextSymbol L
      parseLoop fuel p' st r.1 r.2
    else if pstate = 1 then
      let p' :=
        if S.type = .word ∧ eqCI S.symbol "NODE" then 2
        else if S.type = .word ∧ eqCI S.symbol "ELEMENT_SOLID" then 3
        else if S.type = .word ∧ eqCI S.symbol "ELEMENT_SHELL" then 3
        else if S.type = .word ∧ eqCI S.symbol "ELEMENT_BEAM" then 3
        else if S.type = .word ∧ eqCI S.symbol "PART" then 4
        else if S.type = .word ∧ eqCI S.symbol "PART_INERTIA" then 4
        else 0
      let r := NextSymbol L
      parseLoop fuel p' st r.1 r.2
    else if pstate = 2 then
      if S.type = .whitespace ∨ S.type = .newline then
        let r := NextSymbol L
        parseLoop fuel 2 st r.1 r.2
      else if S.type = .number then
        match acceptNode fuel st.obj L with
        | none => none
        | some (.error e) => some (.error (e.1, ⟨e.2, st.part_names, st.parts⟩))
        | some (.ok d) =>
          let r := NextSymbol d.2
          parseLoop fuel 2 ⟨d.1, st.part_names, st.parts⟩ r.1 r.2
      else if S.type = .asterisk then
        let r := NextSymbol L
        parseLoop fuel 1 st r.1 r.2
      else
        let r := NextSymbol L
        parseLoop fuel 0 st r.1 r.2
    else if pstate = 3 then
      if S.type = .whitespace ∨ S.type = .newline then
        let r := NextSymbol L
        parseLoop fuel 3 st r.1 r.2
      else if S.type = .number then
        match acceptElement st.obj st.parts L with
        | .error e => some (.error (e.1, ⟨e.2.1, st.part_names, e.2.2⟩))
        | .ok d =>
          let r := NextSymbol d.2.2
          parseLoop fuel 3 ⟨d.1, st.part_names, d.2.1⟩ r.1 r.2
      else if S.type = .asterisk then
        let r := NextSymbol L
        parseLoop fuel 1 st r.1 r.2
      else
        let r := NextSymbol L
        parseLoop fuel 0 st r.1 r.2
    else if pstate = 4 then
      if S.type = .whitespace ∨ S.type = .newline then
        let r := NextSymbol L
        parseLoop fuel 4 st r.1 r.2
      else if S.type = .asterisk then
        let r := NextSymbol L
        parseLoop fuel 1 st r.1 r.2
      else if S.type = .word then
        match acceptPart fuel st.part_names L with
        | none => none
        | some (.error e) => some (.error (e, st))
        | some (.ok d) =>
          let r := NextSymbol d.2
          parseLoop fuel 4 ⟨st.obj, d.1, st.parts⟩ r.1 r.2
      else
        let r := NextSymbol L
        parseLoop fuel 0 st r.1 r.2
    else
      let r := NextSymbol L
      parseLoop fuel pstate st r.1 r.2

/-- `KeyFile::Parse` on one input, starting from (and extending) an
accumulated state, as `KeyFile::Append` does. -/
def runParse (fuel : Nat) (st : ParserState) (input : String) :
    Option (Except (ParseError × ParserState) ParserState) :=
  let r := NextSymbol (initLexer input)
  parseLoop fuel 0 st r.1 r.2

/-! ## `IsolatePart`, lines 686-808 -/

/-- One connectivity slot of a matching element: copy the referenced node
unless it is already present or is the sentinel 0.  The position in the
source node list comes from `objects.node_index[nid]` (default 0 for a
missing key); `none` models the `std::out_of_range` thrown by `.at` when
that position is outside the node vectors. -/
def copyNode (objects : Doc) (part : Doc) (s : Int) : Option Doc :=
  if mapLookup part.node_index s = none ∧ s ≠ 0 then
    let old_index := mapLookupD objects.node_index s 0
    match objects.nodes[old_index]? with
    | none => none
    | some nd =>
      some ⟨part.nodes ++ [⟨s, nd.x, nd.y, nd.z⟩],
            part.elements,
            part.element_index,
            mapInsert part.node_index s part.nodes.length⟩
  else some part

def copySlots (objects : Doc) (part : Doc) : List Int → Option Doc
  | [] => some part
  | s :: l =>
    match copyNode objects part s with
    | none => none
    | some part' => copySlots objects part' l

def isolateLoop (objects : Doc) (pid : Int) (part : Doc) : List ElemRec → Option Doc
  | [] => some part
  | e :: l =>
    if e.pid = pid then
      match copySlots objects
          ⟨part.nodes, part.elements ++ [e],
           mapInsert part.element_index e.eid part.elements.length,
           part.node_index⟩ e.conn.toList with
      | none => none
      | some part' => isolateLoop objects pid part' l
    else isolateLoop objects pid part l

/-- `IsolatePart` (the `parts` parameter of the source is unused there and
is omitted). -/
def IsolatePart (objects : Doc) (pid : Int) : Option Doc :=
  isolateLoop objects pid emptyDoc objects.elements

/-! ## `Renumber_Nodes`, lines 817-862

The single C++ loop over nodes builds `node_remap`, `R.nodes` and
`R.node_index`; the three builds are independent and are split into three
passes over the same list. -/

def buildRemap (m : List (Int × Int)) (j : Nat) : List NodeRec → List (Int × Int)
  | [] => m
  | n :: l => buildRemap (mapInsert m n.nid ((j : Int) + 1)) (j + 1) l

def remapOf (part : Doc) : List (Int × Int) :=
  buildRemap (mapInsert [] 0 0) 0 part.nodes

/-- `node_remap[s]`: map read with default 0. -/
def lookupD0 (m : List (Int × Int)) (s : Int) : Int := mapLookupD m s 0

def renumNodes (j : Nat) : List NodeRec → List NodeRec
  | [] => []
  | n :: l => ⟨(j : Int) + 1, n.x, n.y, n.z⟩ :: renumNodes (j + 1) l

def buildIdx (m : List (Int × Nat)) (j : Nat) : List NodeRec → List (Int × Nat)
  | [] => m
  | _ :: l => buildIdx (mapInsert m ((j : Int) + 1) j) (j + 1) l

/-- The element loop: remap the eight slots through `node_remap` and add the
element under the fresh id `j+1` (the original id is read but unused). -/
def renumElems (rm : List (Int × Int)) (j : Nat) (acc : List ElemRec) :
    List ElemRec → Except ParseError (List ElemRec)
  | [] => .ok acc
  | e :: l =>
    match AddElement acc ((j : Int) + 1) e.pid (connMap (fun s => lookupD0 rm s) e.conn) with
    | .error err => .error err
    | .ok acc' => renumElems rm (j + 1) acc' l

def Renumber_Nodes (part : Doc) : Except ParseError Doc :=
  let rm := remapOf part
  match renumElems rm 0 [] part.elements with
  | .error e => .error e
  | .ok es => .ok ⟨renumNodes 0 part.nodes, es, [], buildIdx [] 0 part.nodes⟩

/-! ## Specification-side definitions

These small executable functions state, in the vocabulary of the
specification, what the theorems below prove about the embedded code. -/

/-- Append a nonzero, not-yet-seen reference (first reference wins). -/
def addRef (ids : List Int) (s : Int) : List Int :=
  if s = 0 ∨ s ∈ ids then ids else ids ++ [s]

def refFoldConn (ids : List Int) (c : Conn) : List Int := c.toList.foldl addRef ids

/-- The node ids an extracted part must contain: first references of the
nonzero slots of its elements, in traversal order, deduplicated. -/
def refIds (es : List ElemRec) : List Int :=
  es.foldl (fun ids e => refFoldConn ids e.conn) []

/-- Index of the first occurrence of `s`. -/
def firstIdx (s : Int) : List Int → Option Nat
  | [] => none
  | a :: l => if a = s then some 0 else Option.map (fun k => k + 1) (firstIdx s l)

/-- The old-id-to-new-id table in the specification's words: the node at
position `k` receives id `k+1`; ids not in the node list (including the
sentinel 0) map to 0. -/
def specRemap (P : Doc) (s : Int) : Int :=
  match firstIdx s (nodeIds P) with
  | some k => (k : Int) + 1
  | none => 0

/-- The dense id list `j+1, j+2, ..., j+n`. -/
def denseFrom (j : Nat) : Nat → List Int
  | 0 => []
  | n + 1 => ((j : Int) + 1) :: denseFrom (j + 1) n

def NodeRec.coords (n : NodeRec) : Rat × Rat × Rat := (n.x, n.y, n.z)

/-- The shape claimed for Number tokens: optional leading minus, digits,
optionally a point and digits, optionally an exponent marker with an
optional sign and digits — the sign admitted only right after the marker. -/
def strictShapeChars (l : List Char) : Bool :=
  let l1 : List Char :=
    match l with
    | '-' :: r => r
    | _ => l
  let l2 := spanDigitsDrop l1
  let l3 : List Char :=
    match l2 with
    | '.' :: r => spanDigitsDrop r
    | _ => l2
  match l3 with
  | [] => true
  | m :: r =>
    if m = 'e' ∨ m = 'E' then
      let r1 : List Char :=
        match r with
        | c :: r' => if c = '+' ∨ c = '-' then r' else c :: r'
        | [] => []
      (spanDigitsDrop r1).isEmpty
    else false

def strictNumShape (s : String) : Bool := strictShapeChars s.data

def exceptIsOk {ε α : Type} : Except ε α → Bool
  | .ok _ => true
  | .error _ => false

/-- Coherence of a document's node index with its node list: every listed
node id is a key whose stored position is inside the node list. -/
def IdxInv (part : Doc) : Prop :=
  ∀ s : Int, (mapLookup part.node_index s).isSome ↔ s ∈ nodeIds part

/-- Characterization of `Renumber_Nodes` output (proved equal below). -/
def renumSpec (rm : List (Int × Int)) (j : Nat) : List ElemRec → List ElemRec
  | [] => []
  | e :: l =>
    ⟨(j : Int) + 1, e.pid, connMap (fun s => lookupD0 rm s) e.conn⟩ :: renumSpec rm (j + 1) l

def renumOut (part : Doc) : Doc :=
  ⟨renumNodes 0 part.nodes, renumSpec (remapOf part) 0 part.elements, [],
   buildIdx [] 0 part.nodes⟩

/-- The identity-shaped remap table `buildRemap` produces over an already
renumbered node list. -/
def idRemapFrom (m : List (Int × Int)) (j : Nat) : Nat → List (Int × Int)
  | 0 => m
  | n + 1 => idRemapFrom (mapInsert m ((j : Int) + 1) ((j : Int) + 1)) (j + 1) n

/-- Observation of a parse outcome that keeps everything except the stored
coordinate values: the error (if any), the node ids, the elements, the node
index and the part maps of the accumulated state. -/
def parseView (r : Option (Except (ParseError × ParserState) ParserState)) :
    Option (Option ParseError × List Int × List ElemRec × List (Int × Nat) ×
            List (Int × String) × List (Int × List ElemRec)) :=
  match r with
  | none => none
  | some (.error es) =>
    some (some es.1, es.2.obj.nodes.map NodeRec.nid, es.2.obj.elements,
          es.2.obj.node_index, es.2.part_names, es.2.parts)
  | some (.ok st) =>
    some (none, st.obj.nodes.map NodeRec.nid, st.obj.elements,
          st.obj.node_index, st.part_names, st.parts)

/-! ## Concrete data used by witnesses and counterexamples -/

/-- A document with a dangling connectivity reference: the single element
(part 7) references node id 2, which is absent from the node table. -/
def danglingDoc : Doc :=
  ⟨[⟨1, 0, 0, 0⟩], [⟨1, 7, ⟨2, 0, 0, 0, 0, 0, 0, 0⟩⟩], [(1, 0)], [(1, 0)]⟩

/-- A well-formed three-node, three-element document; part 5 owns the first
and third elements, which share node 2. -/
def wfDoc : Doc :=
  ⟨[⟨1, 0, 0, 0⟩, ⟨2, 0, 0, 0⟩, ⟨3, 0, 0, 0⟩],
   [⟨10, 5, ⟨1, 2, 1, 0, 0, 0, 0, 0⟩⟩,
    ⟨11, 6, ⟨3, 3, 0, 0, 0, 0, 0, 0⟩⟩,
    ⟨12, 5, ⟨2, 3, 0, 0, 0, 0, 0, 0⟩⟩],
   [(10, 0), (11, 1), (12, 2)],
   [(1, 0), (2, 1), (3, 2)]⟩

/-- An extracted-part-shaped document with non-dense ids. -/
def partDoc : Doc :=
  ⟨[⟨4, 0, 0, 0⟩, ⟨7, 0, 0, 0⟩], [⟨10, 5, ⟨7, 4, 0, 0, 0, 0, 0, 0⟩⟩], [], []⟩

/-- The renumbering of `partDoc`. -/
def partDocR : Doc :=
  ⟨[⟨1, 0, 0, 0⟩, ⟨2, 0, 0, 0⟩], [⟨1, 5, ⟨2, 1, 0, 0, 0, 0, 0, 0⟩⟩], [], [(1, 0), (2, 1)]⟩

/-- A document already containing element id 10 (as if parsed from a first
input file). -/
def dupBaseDoc : Doc :=
  ⟨[], [⟨10, 5, ⟨1, 2, 0, 0, 0, 0, 0, 0⟩⟩], [(10, 0)], []⟩

/-- A lexer positioned as `AcceptElement` finds it: the current symbol is
the element-id number `10` and the rest of the record follows. -/
def dupLexer : KeyFileLexer :=
  ⟨(" 5 1 2 0 0 0 0 0 0\n").data, 0, ⟨.number, "10"⟩, 2⟩

/-- A mid-parse accumulated state: one node (id 1) already read from the
current input. -/
def midState : ParserState := ⟨⟨[⟨1, 0, 0, 0⟩], [], [], [(1, 0)]⟩, [], []⟩

/-- A lexer positioned inside a NODE block on a record (`"2 0"`, missing two
coordinates) whose parse is about to fail. -/
def midLexer : KeyFileLexer := ⟨(" 0\n").data, 0, ⟨.number, "2"⟩, 3⟩

/-! # Theorems

## Association-map lemmas -/

theorem mapLookup_mapInsert {β : Type} (m : List (Int × β)) (k k' : Int) (v : β) :
    mapLookup (mapInsert m k v) k' = if k' = k then some v else mapLookup m k' := by
  induction m with
  | nil =>
    by_cases h : k' = k
    · subst h; simp [mapInsert, mapLookup]
    · have h2 : ¬(k = k') := fun hh => h hh.symm
      simp [mapInsert, mapLookup, h, h2]
  | cons kv m ih =>
    by_cases hk : kv.1 = k
    · by_cases h : k' = k
      · subst h; simp [mapInsert, mapLookup, hk]
      · have h2 : ¬(k = k') := fun hh => h hh.symm
        have h3 : ¬(kv.1 = k') := by rw [hk]; exact h2
        simp [mapInsert, mapLookup, hk, h, h2, h3]
    · by_cases h : k' = k
      · subst h
        simp [mapInsert, mapLookup, hk, ih]
      · by_cases h2 : kv.1 = k' <;> simp [mapInsert, mapLookup, hk, h, h2, ih]

theorem mem_mapInsert {β : Type} (m : List (Int × β)) (k : Int) (v : β) (kv : Int × β) :
    kv ∈ mapInsert m k v → kv ∈ m ∨ kv = (k, v) := by
  induction m with
  | nil => intro h; simp [mapInsert] at h; exact Or.inr h
  | cons kv' m ih =>
    by_cases hk : kv'.1 = k
    · intro h
      simp only [mapInsert, if_pos hk] at h
      rcases List.mem_cons.mp h with h | h
      · exact Or.inr h
      · exact Or.inl (List.mem_cons_of_mem _ h)
    · intro h
      simp only [mapInsert, if_neg hk] at h
      rcases List.mem_cons.mp h with h | h
      · exact Or.inl (h ▸ List.mem_cons_self _ _)
      · rcases ih h with h | h
        · exact Or.inl (List.mem_cons_of_mem _ h)
        · exact Or.inr h

theorem mapLookup_mem {β : Type} (m : List (Int × β)) (k : Int) (v : β) :
    mapLookup m k = some v → (k, v) ∈ m := by
  induction m with
  | nil => intro h; simp [mapLookup] at h
  | cons kv m ih =>
    by_cases hk : kv.1 = k
    · intro h
      simp only [mapLookup, if_pos hk] at h
      have : kv = (k, v) := Prod.ext hk (Option.some_injective _ h)
      exact this ▸ List.mem_cons_self _ _
    · intro h
      simp only [mapLookup, if_neg hk] at h
      exact List.mem_cons_of_mem _ (ih h)

/-! ## Reference-accumulation lemmas (`addRef` folds) -/

theorem mem_addRef (ids : List Int) (s t : Int) :
    t ∈ addRef ids s ↔ t ∈ ids ∨ (t = s ∧ s ≠ 0) := by
  unfold addRef
  split
  · rename_i h
    rcases h with h0 | hm
    · subst h0; simp
    · constructor
      · exact Or.inl
      · rintro (h | ⟨rfl, _⟩)
        · exact h
        · exact hm
  · rename_i h
    push_neg at h
    simp only [List.mem_append, List.mem_singleton]
    constructor
    · rintro (h1 | rfl)
      · exact Or.inl h1
      · exact Or.inr ⟨rfl, h.1⟩
    · rintro (h1 | ⟨rfl, _⟩)
      · exact Or.inl h1
      · exact Or.inr rfl

theorem nodup_addRef (ids : List Int) (s : Int) (h : ids.Nodup) : (addRef ids s).Nodup := by
  unfold addRef
  split
  · exact h
  · rename_i hc
    push_neg at hc
    rw [← List.concat_eq_append]
    exact h.concat hc.2

theorem zero_notMem_addRef (ids : List Int) (s : Int) (h : (0 : Int) ∉ ids) :
    (0 : Int) ∉ addRef ids s := by
  unfold addRef
  split
  · exact h
  · rename_i hc
    push_neg at hc
    simp only [List.mem_append, List.mem_singleton]
    rintro (h1 | h1)
    · exact h h1
    · exact hc.1 h1.symm

theorem mem_foldl_addRef (l : List Int) (ids : List Int) (t : Int) :
    t ∈ l.foldl addRef ids ↔ t ∈ ids ∨ (t ∈ l ∧ t ≠ 0) := by
  induction l generalizing ids with
  | nil => simp
  | cons s l ih =>
    rw [List.foldl_cons, ih, mem_addRef]
    constructor
    · rintro ((h | ⟨rfl, hs⟩) | ⟨hl, ht⟩)
      · exact Or.inl h
      · exact Or.inr ⟨List.mem_cons_self _ _, hs⟩
      · exact Or.inr ⟨List.mem_cons_of_mem _ hl, ht⟩
    · rintro (h | ⟨hm, ht⟩)
      · exact Or.inl (Or.inl h)
      · rcases List.mem_cons.mp hm with rfl | hl
        · exact Or.inl (Or.inr ⟨rfl, ht⟩)
        · exact Or.inr ⟨hl, ht⟩

theorem nodup_foldl_addRef (l : List Int) (ids : List Int) (h : ids.Nodup) :
    (l.foldl addRef ids).Nodup := by
  induction l generalizing ids with
  | nil => exact h
  | cons s l ih => exact ih _ (nodup_addRef _ _ h)

theorem zero_notMem_foldl_addRef (l : List Int) (ids : List Int) (h : (0 : Int) ∉ ids) :
    (0 : Int) ∉ l.foldl addRef ids := by
  induction l generalizing ids with
  | nil => exact h
  | cons s l ih => exact ih _ (zero_notMem_addRef _ _ h)

theorem mem_refFold (es : List ElemRec) (ids : List Int) (t : Int) :
    t ∈ es.foldl (fun ids e => refFoldConn ids e.conn) ids ↔
      t ∈ ids ∨ (t ≠ 0 ∧ ∃ e ∈ es, t ∈ e.conn.toList) := by
  induction es generalizing ids with
  | nil => simp
  | cons e l ih =>
    rw [List.foldl_cons]
    show t ∈ l.foldl (fun ids e => refFoldConn ids e.conn) (refFoldConn ids e.conn) ↔ _
    rw [ih, refFoldConn, mem_foldl_addRef]
    constructor
    · rintro ((h | ⟨hm, ht⟩) | ⟨ht, e', he', hm⟩)
      · exact Or.inl h
      · exact Or.inr ⟨ht, e, List.mem_cons_self _ _, hm⟩
      · exact Or.inr ⟨ht, e', List.mem_cons_of_mem _ he', hm⟩
    · rintro (h | ⟨ht, e', he', hm⟩)
      · exact Or.inl (Or.inl h)
      · rcases List.mem_cons.mp he' with rfl | hl
        · exact Or.inl (Or.inr ⟨hm, ht⟩)
        · exact Or.inr ⟨ht, e', hl, hm⟩

theorem nodup_refFold (es : List ElemRec) (ids : List Int) (h : ids.Nodup) :
    (es.foldl (fun ids e => refFoldConn ids e.conn) ids).Nodup := by
  induction es generalizing ids with
  | nil => exact h
  | cons e l ih => exact ih _ (nodup_foldl_addRef _ _ h)

theorem zero_notMem_refFold (es : List ElemRec) (ids : List Int) (h : (0 : Int) ∉ ids) :
    (0 : Int) ∉ es.foldl (fun ids e => refFoldConn ids e.conn) ids := by
  induction es generalizing ids with
  | nil => exact h
  | cons e l ih => exact ih _ (zero_notMem_foldl_addRef _ _ h)

/-! ## Correctness of `IsolatePart` -/

theorem copyNode_spec (objects part : Doc) (s : Int)
    (hInv : IdxInv part)
    (hs : s ≠ 0 → mapLookupD objects.node_index s 0 < objects.nodes.length) :
    ∃ part', copyNode objects part s = some part' ∧
      nodeIds part' = addRef (nodeIds part) s ∧
      part'.elements = part.elements ∧
      part'.element_index = part.element_index ∧
      IdxInv part' := by
  by_cases h0 : s = 0
  · subst h0
    refine ⟨part, ?_, ?_, rfl, rfl, hInv⟩
    · unfold copyNode
      rw [if_neg]
      rintro ⟨-, hne⟩
      exact hne rfl
    · unfold addRef
      rw [if_pos (Or.inl rfl)]
  · by_cases hm : s ∈ nodeIds part
    · have hlk : (mapLookup part.node_index s).isSome := (hInv s).mpr hm
      refine ⟨part, ?_, ?_, rfl, rfl, hInv⟩
      · unfold copyNode
        rw [if_neg]
        rintro ⟨hnone, -⟩
        rw [hnone] at hlk
        simp at hlk
      · unfold addRef
        rw [if_pos (Or.inr hm)]
    · have hlk : mapLookup part.node_index s = none := by
        cases hh : mapLookup part.node_index s with
        | none => rfl
        | some v => exact absurd ((hInv s).mp (by simp [hh])) hm
      have hlt := hs h0
      obtain ⟨nd, hnd⟩ : ∃ nd, objects.nodes[mapLookupD objects.node_index s 0]? = some nd :=
        ⟨objects.nodes[mapLookupD objects.node_index s 0], List.getElem?_eq_getElem hlt⟩
      refine ⟨⟨part.nodes ++ [⟨s, nd.x, nd.y, nd.z⟩], part.elements, part.element_index,
              mapInsert part.node_index s part.nodes.length⟩, ?_, ?_, rfl, rfl, ?_⟩
      · unfold copyNode
        rw [if_pos ⟨hlk, h0⟩]
        simp only [hnd]
      · unfold addRef
        rw [if_neg]
        · simp [nodeIds]
        · rintro (h | h)
          · exact h0 h
          · exact hm h
      · intro t
        show (mapLookup (mapInsert part.node_index s part.nodes.length) t).isSome ↔
          t ∈ (part.nodes ++ [(⟨s, nd.x, nd.y, nd.z⟩ : NodeRec)]).map NodeRec.nid
        rw [mapLookup_mapInsert]
        by_cases ht : t = s
        · subst ht
          simp
        · rw [if_neg ht]
          simp only [List.map_append, List.mem_append]
          rw [hInv t]
          simp [nodeIds, ht]

theorem copySlots_spec (objects : Doc) (l : List Int) (part : Doc)
    (hInv : IdxInv part)
    (hs : ∀ s ∈ l, s ≠ 0 → mapLookupD objects.node_index s 0 < objects.nodes.length) :
    ∃ part', copySlots objects part l = some part' ∧
      nodeIds part' = l.foldl addRef (nodeIds part) ∧
      part'.elements = part.elements ∧
      part'.element_index = part.element_index ∧
      IdxInv part' := by
  induction l generalizing part with
  | nil => exact ⟨part, rfl, rfl, rfl, rfl, hInv⟩
  | cons s l ih =>
    obtain ⟨p1, hcn, hids, hel, hei, hinv1⟩ :=
      copyNode_spec objects part s hInv (hs s (List.mem_cons_self _ _))
    obtain ⟨p2, hcs, hids2, hel2, hei2, hinv2⟩ :=
      ih p1 hinv1 (fun t ht => hs t (List.mem_cons_of_mem _ ht))
    refine ⟨p2, ?_, ?_, hel2.trans hel, hei2.trans hei, hinv2⟩
    · unfold copySlots
      rw [hcn]
      exact hcs
    · rw [hids2, hids, List.foldl_cons]

theorem isolateLoop_spec (objects : Doc) (pid : Int) (es : List ElemRec) (part : Doc)
    (hInv : IdxInv part)
    (hs : ∀ e ∈ es, ∀ s ∈ e.conn.toList, s ≠ 0 →
      mapLookupD objects.node_index s 0 < objects.nodes.length) :
    ∃ P, isolateLoop objects pid part es = some P ∧
      P.elements = part.elements ++ es.filter (fun e => e.pid = pid) ∧
      nodeIds P = (es.filter (fun e => e.pid = pid)).foldl
        (fun ids e => refFoldConn ids e.conn) (nodeIds part) ∧
      IdxInv P := by
  induction es generalizing part with
  | nil => exact ⟨part, rfl, by simp, by simp, hInv⟩
  | cons e l ih =>
    by_cases hp : e.pid = pid
    · have hInv1 : IdxInv ⟨part.nodes, part.elements ++ [e],
        mapInsert part.element_index e.eid part.elements.length, part.node_index⟩ := hInv
      obtain ⟨p1, hcs, hids1, hel1, hei1, hinv1⟩ :=
        copySlots_spec objects e.conn.toList _ hInv1 (hs e (List.mem_cons_self _ _))
      obtain ⟨P, hloop, helP, hidsP, hinvP⟩ :=
        ih p1 hinv1 (fun e' he' => hs e' (List.mem_cons_of_mem _ he'))
      refine ⟨P, ?_, ?_, ?_, hinvP⟩
      · unfold isolateLoop
        rw [if_pos hp, hcs]
        exact hloop
      · rw [helP, hel1]
        show part.elements ++ [e] ++ _ = _
        rw [List.filter_cons_of_pos (by simp [hp]), List.append_assoc]
        rfl
      · rw [hidsP, hids1]
        rw [List.filter_cons_of_pos (by simp [hp]), List.foldl_cons]
        rfl
    · obtain ⟨P, hloop, helP, hidsP, hinvP⟩ :=
        ih part hInv (fun e' he' => hs e' (List.mem_cons_of_mem _ he'))
      refine ⟨P, ?_, ?_, ?_, hinvP⟩
      · unfold isolateLoop
        rw [if_neg hp]
        exact hloop
      · rw [helP, List.filter_cons_of_neg (by simp [hp])]
      · rw [hidsP, List.filter_cons_of_neg (by simp [hp])]

/-- C1: for every document satisfying referential integrity (each nonzero
connectivity slot references a node present in the document, through a
coherent node index), `IsolatePart` returns a document whose elements are
exactly the elements of the requested part in their original relative
order, whose node-id list is the first-reference-wins deduplication of the
nonzero references of those elements (so every nonzero referenced id occurs
exactly once), and which never contains node id 0. -/
theorem isolatePart_correct (D : Doc) (p : Int)
    (href : ∀ e ∈ D.elements, ∀ s ∈ e.conn.toList, s ≠ 0 → s ∈ nodeIds D)
    (hidx : ∀ s ∈ nodeIds D, mapLookupD D.node_index s 0 < D.nodes.length) :
    ∃ P, IsolatePart D p = some P ∧
      P.elements = D.elements.filter (fun e => e.pid = p) ∧
      (∀ e ∈ P.elements, e.pid = p) ∧
      nodeIds P = refIds (D.elements.filter (fun e => e.pid = p)) ∧
      (nodeIds P).Nodup ∧
      (0 : Int) ∉ nodeIds P ∧
      (∀ s : Int, s ≠ 0 → (s ∈ nodeIds P ↔ ∃ e ∈ P.elements, s ∈ e.conn.toList)) := by
  have hs : ∀ e ∈ D.elements, ∀ s ∈ e.conn.toList, s ≠ 0 →
      mapLookupD D.node_index s 0 < D.nodes.length :=
    fun e he s hse hs0 => hidx s (href e he s hse hs0)
  have hInv0 : IdxInv emptyDoc := by
    intro s
    simp [emptyDoc, mapLookup, nodeIds]
  obtain ⟨P, hloop, helP, hidsP, hinvP⟩ := isolateLoop_spec D p D.elements emptyDoc hInv0 hs
  have hel : P.elements = D.elements.filter (fun e => e.pid = p) := by
    simpa [emptyDoc] using helP
  have hids : nodeIds P = refIds (D.elements.filter (fun e => e.pid = p)) := by
    rw [hidsP]
    rfl
  refine ⟨P, hloop, hel, ?_, hids, ?_, ?_, ?_⟩
  · intro e he
    rw [hel] at he
    exact of_decide_eq_true (List.mem_filter.mp he).2
  · rw [hids]
    exact nodup_refFold _ _ List.nodup_nil
  · rw [hids]
    exact zero_notMem_refFold _ _ (by simp)
  · intro s hs0
    rw [hids, hel]
    show s ∈ (D.elements.filter (fun e => e.pid = p)).foldl
      (fun ids e => refFoldConn ids e.conn) [] ↔ _
    rw [mem_refFold]
    simp [hs0]

/-- Witness for C1: the theorem applied to the concrete document `wfDoc`
and part id 5. -/
theorem isolatePart_correct_witness :
    (∀ e ∈ wfDoc.elements, ∀ s ∈ e.conn.toList, s ≠ 0 → s ∈ nodeIds wfDoc) ∧
    (∀ s ∈ nodeIds wfDoc, mapLookupD wfDoc.node_index s 0 < wfDoc.nodes.length) ∧
    (∃ P, IsolatePart wfDoc 5 = some P ∧
      P.elements = wfDoc.elements.filter (fun e => e.pid = 5) ∧
      (∀ e ∈ P.elements, e.pid = 5) ∧
      nodeIds P = refIds (wfDoc.elements.filter (fun e => e.pid = 5)) ∧
      (nodeIds P).Nodup ∧
      (0 : Int) ∉ nodeIds P ∧
      (∀ s : Int, s ≠ 0 → (s ∈ nodeIds P ↔ ∃ e ∈ P.elements, s ∈ e.conn.toList))) :=
  ⟨by decide, by decide, isolatePart_correct wfDoc 5 (by decide) (by decide)⟩

/-! ## Characterization of `Renumber_Nodes` -/

theorem renumElems_ok (rm : List (Int × Int)) (l : List ElemRec) (j : Nat) (acc : List ElemRec)
    (hb : ∀ e ∈ acc, e.eid < (j : Int) + 1) :
    renumElems rm j acc l = .ok (acc ++ renumSpec rm j l) := by
  induction l generalizing j acc with
  | nil => simp [renumElems, renumSpec]
  | cons e l ih =>
    have hadd : AddElement acc ((j : Int) + 1) e.pid (connMap (fun s => lookupD0 rm s) e.conn)
        = .ok (acc ++ [⟨(j : Int) + 1, e.pid, connMap (fun s => lookupD0 rm s) e.conn⟩]) := by
      unfold AddElement
      rw [if_neg]
      intro h
      obtain ⟨e', he', heq⟩ := List.any_eq_true.mp h
      have hlt := hb e' he'
      have heq' : e'.eid = (j : Int) + 1 := of_decide_eq_true heq
      omega
    rw [renumElems, hadd]
    show renumElems rm (j + 1)
      (acc ++ [⟨(j : Int) + 1, e.pid, connMap (fun s => lookupD0 rm s) e.conn⟩]) l =
      Except.ok (acc ++ renumSpec rm j (e :: l))
    rw [ih (j + 1) _ ?hb2]
    · rw [renumSpec]
      simp
    case hb2 =>
      intro e' he'
      rcases List.mem_append.mp he' with h | h
      · have := hb e' h
        push_cast
        omega
      · simp only [List.mem_singleton] at h
        subst h
        push_cast
        omega

theorem renumber_eq (part : Doc) : Renumber_Nodes part = .ok (renumOut part) := by
  show (match renumElems (remapOf part) 0 [] part.elements with
        | Except.error e => Except.error e
        | Except.ok es =>
          Except.ok (⟨renumNodes 0 part.nodes, es, [], buildIdx [] 0 part.nodes⟩ : Doc))
      = Except.ok (renumOut part)
  rw [renumElems_ok (remapOf part) part.elements 0 [] (by intro e h; simp at h)]
  show Except.ok (⟨renumNodes 0 part.nodes, [] ++ renumSpec (remapOf part) 0 part.elements,
    [], buildIdx [] 0 part.nodes⟩ : Doc) = .ok (renumOut part)
  rw [List.nil_append]
  rfl

theorem renumNodes_map_nid (l : List NodeRec) (j : Nat) :
    (renumNodes j l).map NodeRec.nid = denseFrom j l.length := by
  induction l generalizing j with
  | nil => rfl
  | cons n l ih => simp [renumNodes, denseFrom, ih]

theorem renumNodes_map_coords (l : List NodeRec) (j : Nat) :
    (renumNodes j l).map NodeRec.coords = l.map NodeRec.coords := by
  induction l generalizing j with
  | nil => rfl
  | cons n l ih => simp [renumNodes, NodeRec.coords, ih]

theorem renumNodes_length (l : List NodeRec) (j : Nat) :
    (renumNodes j l).length = l.length := by
  induction l generalizing j with
  | nil => rfl
  | cons n l ih => simp [renumNodes, ih]

theorem renumSpec_map_eid (rm : List (Int × Int)) (l : List ElemRec) (j : Nat) :
    (renumSpec rm j l).map ElemRec.eid = denseFrom j l.length := by
  induction l generalizing j with
  | nil => rfl
  | cons e l ih => simp [renumSpec, denseFrom, ih]

theorem renumSpec_map_pid (rm : List (Int × Int)) (l : List ElemRec) (j : Nat) :
    (renumSpec rm j l).map ElemRec.pid = l.map ElemRec.pid := by
  induction l generalizing j with
  | nil => rfl
  | cons e l ih => simp [renumSpec, ih]

theorem renumSpec_map_conn (rm : List (Int × Int)) (l : List ElemRec) (j : Nat) :
    (renumSpec rm j l).map ElemRec.conn =
      l.map (fun e => connMap (fun s => lookupD0 rm s) e.conn) := by
  induction l generalizing j with
  | nil => rfl
  | cons e l ih => simp [renumSpec, ih]

theorem firstIdx_eq_none (s : Int) (l : List Int) (h : s ∉ l) : firstIdx s l = none := by
  induction l with
  | nil => rfl
  | cons a l ih =>
    rw [firstIdx]
    rw [if_neg (fun ha => h (List.mem_cons.mpr (Or.inl ha.symm)))]
    rw [ih (fun hm => h (List.mem_cons_of_mem _ hm))]
    rfl

theorem firstIdx_isSome (s : Int) (l : List Int) (h : s ∈ l) : (firstIdx s l).isSome := by
  induction l with
  | nil => simp at h
  | cons a l ih =>
    rw [firstIdx]
    by_cases ha : a = s
    · simp [ha]
    · rcases List.mem_cons.mp h with rfl | hm
      · exact absurd rfl ha
      · have hsome := ih hm
        rw [if_neg ha]
        cases hfi : firstIdx s l with
        | none => rw [hfi] at hsome; simp at hsome
        | some k => rfl

theorem mapLookup_buildRemap (l : List NodeRec) (m : List (Int × Int)) (j : Nat) (s : Int)
    (hnd : (l.map NodeRec.nid).Nodup) :
    mapLookup (buildRemap m j l) s =
      match firstIdx s (l.map NodeRec.nid) with
      | some k => some (((j + k : Nat) : Int) + 1)
      | none => mapLookup m s := by
  induction l generalizing m j with
  | nil => rfl
  | cons n l ih =>
    simp only [List.map_cons] at hnd
    obtain ⟨hhead, hnd'⟩ := List.nodup_cons.mp hnd
    rw [buildRemap, ih _ (j + 1) hnd']
    by_cases hs : n.nid = s
    · have hnotin : s ∉ l.map NodeRec.nid := hs ▸ hhead
      rw [firstIdx_eq_none s _ hnotin]
      simp only [List.map_cons, firstIdx, if_pos hs]
      rw [mapLookup_mapInsert, if_pos hs.symm]
      norm_num
    · simp only [List.map_cons, firstIdx, if_neg hs]
      cases hfi : firstIdx s (l.map NodeRec.nid) with
      | some k =>
        show some (((j + 1 + k : Nat) : Int) + 1) = some (((j + (k + 1) : Nat) : Int) + 1)
        have : j + 1 + k = j + (k + 1) := by omega
        rw [this]
      | none =>
        show mapLookup (mapInsert m n.nid ((j : Int) + 1)) s = mapLookup m s
        rw [mapLookup_mapInsert, if_neg (fun hh => hs hh.symm)]

theorem lookupD0_remapOf (P : Doc) (hnd : (nodeIds P).Nodup)
    (s : Int) : lookupD0 (remapOf P) s = specRemap P s := by
  unfold nodeIds at hnd
  unfold lookupD0 remapOf mapLookupD specRemap nodeIds
  rw [mapLookup_buildRemap P.nodes _ 0 s hnd]
  cases hfi : firstIdx s (P.nodes.map NodeRec.nid) with
  | some k =>
    show (some (((0 + k : Nat) : Int) + 1)).getD 0 = (k : Int) + 1
    simp
  | none =>
    show (mapLookup (mapInsert [] 0 0) s).getD 0 = 0
    by_cases hs0 : s = 0
    · subst hs0
      simp [mapInsert, mapLookup]
    · have h00 : ¬((0 : Int) = s) := fun hh => hs0 hh.symm
      simp [mapInsert, mapLookup, h00]

/-- C2: for a document with distinct node ids (and without the reserved
id 0), whose nonzero connectivity slots all reference its nodes,
`Renumber_Nodes` succeeds and returns a document whose node ids are exactly
`1..N` in original append order with the coordinates unchanged, whose
element ids are exactly `1..M` in order of appearance with the part ids
carried through, and whose connectivity slots are remapped by the
position-based old-to-new table `specRemap`, which maps 0 to 0 and maps
nonzero referenced ids to nonzero new ids. -/
theorem renumber_correct (P : Doc)
    (hnd : (nodeIds P).Nodup) (h0 : (0 : Int) ∉ nodeIds P)
    (href : ∀ e ∈ P.elements, ∀ s ∈ e.conn.toList, s ≠ 0 → s ∈ nodeIds P) :
    ∃ R, Renumber_Nodes P = .ok R ∧
      nodeIds R = denseFrom 0 P.nodes.length ∧
      R.nodes.map NodeRec.coords = P.nodes.map NodeRec.coords ∧
      R.elements.map ElemRec.eid = denseFrom 0 P.elements.length ∧
      R.elements.map ElemRec.pid = P.elements.map ElemRec.pid ∧
      R.elements.map ElemRec.conn = P.elements.map (fun e => connMap (specRemap P) e.conn) ∧
      specRemap P 0 = 0 ∧
      (∀ e ∈ P.elements, ∀ s ∈ e.conn.toList, s ≠ 0 → specRemap P s ≠ 0) := by
  refine ⟨renumOut P, renumber_eq P, ?_, ?_, ?_, ?_, ?_, ?_, ?_⟩
  · show (renumNodes 0 P.nodes).map NodeRec.nid = _
    exact renumNodes_map_nid _ 0
  · exact renumNodes_map_coords _ 0
  · exact renumSpec_map_eid _ _ 0
  · exact renumSpec_map_pid _ _ 0
  · show (renumSpec (remapOf P) 0 P.elements).map ElemRec.conn = _
    rw [renumSpec_map_conn]
    have hfn : (fun s => lookupD0 (remapOf P) s) = specRemap P :=
      funext (fun s => lookupD0_remapOf P hnd s)
    rw [hfn]
  · unfold specRemap
    rw [firstIdx_eq_none 0 _ h0]
  · intro e he s hs hs0
    have hmem := href e he s hs hs0
    unfold specRemap
    cases hfi : firstIdx s (nodeIds P) with
    | none =>
      have := firstIdx_isSome s _ hmem
      rw [hfi] at this
      simp at this
    | some k =>
      show (k : Int) + 1 ≠ 0
      omega

/-- Witness for C2: the theorem applied to the concrete document `partDoc`. -/
theorem renumber_correct_witness :
    (nodeIds partDoc).Nodup ∧ (0 : Int) ∉ nodeIds partDoc ∧
    (∀ e ∈ partDoc.elements, ∀ s ∈ e.conn.toList, s ≠ 0 → s ∈ nodeIds partDoc) ∧
    (∃ R, Renumber_Nodes partDoc = .ok R ∧
      nodeIds R = denseFrom 0 partDoc.nodes.length ∧
      R.nodes.map NodeRec.coords = partDoc.nodes.map NodeRec.coords ∧
      R.elements.map ElemRec.eid = denseFrom 0 partDoc.elements.length ∧
      R.elements.map ElemRec.pid = partDoc.elements.map ElemRec.pid ∧
      R.elements.map ElemRec.conn =
        partDoc.elements.map (fun e => connMap (specRemap partDoc) e.conn) ∧
      specRemap partDoc 0 = 0 ∧
      (∀ e ∈ partDoc.elements, ∀ s ∈ e.conn.toList, s ≠ 0 → specRemap partDoc s ≠ 0)) :=
  ⟨by decide, by decide, by decide,
   renumber_correct partDoc (by decide) (by decide) (by decide)⟩

/-! ## Idempotence of renumbering -/

theorem renumNodes_idem (l : List NodeRec) (j : Nat) :
    renumNodes j (renumNodes j l) = renumNodes j l := by
  induction l generalizing j with
  | nil => rfl
  | cons n l ih => simp [renumNodes, ih]

theorem buildIdx_congr (l l' : List NodeRec) (m : List (Int × Nat)) (j : Nat)
    (h : l.length = l'.length) : buildIdx m j l = buildIdx m j l' := by
  induction l generalizing l' m j with
  | nil =>
    cases l' with
    | nil => rfl
    | cons n' l' => simp at h
  | cons n l ih =>
    cases l' with
    | nil => simp at h
    | cons n' l' =>
      rw [buildIdx, buildIdx]
      exact ih l' _ (j + 1) (by simpa using h)

theorem buildRemap_renumNodes (l : List NodeRec) (m : List (Int × Int)) (j : Nat) :
    buildRemap m j (renumNodes j l) = idRemapFrom m j l.length := by
  induction l generalizing m j with
  | nil => rfl
  | cons n l ih =>
    rw [renumNodes, buildRemap]
    show buildRemap (mapInsert m ((j : Int) + 1) ((j : Int) + 1)) (j + 1) (renumNodes (j + 1) l) = _
    rw [ih _ (j + 1)]
    rfl

theorem mapLookup_idRemapFrom (n : Nat) (m : List (Int × Int)) (j : Nat) (s : Int) :
    mapLookup (idRemapFrom m j n) s =
      if (j : Int) < s ∧ s ≤ (j : Int) + (n : Int) then some s else mapLookup m s := by
  induction n generalizing m j with
  | zero =>
    rw [idRemapFrom, if_neg]
    rintro ⟨h1, h2⟩
    omega
  | succ n ih =>
    rw [idRemapFrom, ih _ (j + 1)]
    by_cases h1 : ((j + 1 : Nat) : Int) < s ∧ s ≤ ((j + 1 : Nat) : Int) + (n : Int)
    · rw [if_pos h1, if_pos (by push_cast at h1 ⊢; omega)]
    · rw [if_neg h1, mapLookup_mapInsert]
      by_cases h2 : s = (j : Int) + 1
      · rw [if_pos h2, if_pos (by push_cast; omega)]
        rw [h2]
      · have houter : ¬((j : Int) < s ∧ s ≤ (j : Int) + ((n + 1 : Nat) : Int)) := by
          rintro ⟨hc1, hc2⟩
          apply h1
          push_cast at hc2 ⊢
          constructor <;> omega
        rw [if_neg h2, if_neg houter]

theorem buildRemap_value_bound (l : List NodeRec) (m : List (Int × Int)) (j : Nat) (B : Int)
    (hjB : (j : Int) + l.length ≤ B)
    (hm : ∀ kv ∈ m, 0 ≤ kv.2 ∧ kv.2 ≤ B) :
    ∀ kv ∈ buildRemap m j l, 0 ≤ kv.2 ∧ kv.2 ≤ B := by
  induction l generalizing m j with
  | nil => exact hm
  | cons n l ih =>
    simp only [List.length_cons] at hjB
    rw [buildRemap]
    apply ih
    · push_cast at hjB ⊢
      omega
    · intro kv hkv
      rcases mem_mapInsert _ _ _ _ hkv with h | h
      · exact hm kv h
      · subst h
        show 0 ≤ (j : Int) + 1 ∧ (j : Int) + 1 ≤ B
        push_cast at hjB
        constructor <;> omega

theorem lookupD0_remapOf_bound (P : Doc) (s : Int) :
    0 ≤ lookupD0 (remapOf P) s ∧ lookupD0 (remapOf P) s ≤ (P.nodes.length : Int) := by
  unfold lookupD0 mapLookupD
  cases hl : mapLookup (remapOf P) s with
  | none => simp
  | some v =>
    have hv := buildRemap_value_bound P.nodes (mapInsert [] 0 0) 0 (P.nodes.length : Int)
      (by push_cast; omega)
      (by
        intro kv hkv
        rcases mem_mapInsert [] 0 0 kv hkv with h | h
        · simp at h
        · subst h
          constructor
          · exact le_refl 0
          · positivity)
      (s, v) (mapLookup_mem _ _ _ hl)
    simpa using hv

theorem lookupD0_remap_renum (P : Doc) (s : Int)
    (h1 : 0 ≤ s) (h2 : s ≤ (P.nodes.length : Int)) :
    lookupD0 (remapOf (renumOut P)) s = s := by
  show mapLookupD (buildRemap (mapInsert [] 0 0) 0 (renumNodes 0 P.nodes)) s 0 = s
  rw [buildRemap_renumNodes]
  unfold mapLookupD
  rw [mapLookup_idRemapFrom]
  by_cases hs : ((0 : Nat) : Int) < s ∧ s ≤ ((0 : Nat) : Int) + ((P.nodes.length : Nat) : Int)
  · rw [if_pos hs]
    rfl
  · rw [if_neg hs]
    have hs0 : s = 0 := by
      push_cast at hs
      omega
    subst hs0
    simp [mapInsert, mapLookup]

theorem renumSpec_idem (P : Doc) (l : List ElemRec) (j : Nat) :
    renumSpec (remapOf (renumOut P)) j (renumSpec (remapOf P) j l) =
      renumSpec (remapOf P) j l := by
  induction l generalizing j with
  | nil => rfl
  | cons e l ih =>
    show (⟨(j : Int) + 1, e.pid,
        connMap (fun s => lookupD0 (remapOf (renumOut P)) s)
          (connMap (fun s => lookupD0 (remapOf P) s) e.conn)⟩ : ElemRec) ::
        renumSpec (remapOf (renumOut P)) (j + 1) (renumSpec (remapOf P) (j + 1) l) =
      ⟨(j : Int) + 1, e.pid, connMap (fun s => lookupD0 (remapOf P) s) e.conn⟩ ::
        renumSpec (remapOf P) (j + 1) l
    rw [ih (j + 1)]
    have hid : ∀ s : Int, lookupD0 (remapOf (renumOut P)) (lookupD0 (remapOf P) s) =
        lookupD0 (remapOf P) s := by
      intro s
      obtain ⟨hb1, hb2⟩ := lookupD0_remapOf_bound P s
      exact lookupD0_remap_renum P _ hb1 hb2
    simp [connMap, hid]

theorem renumOut_idem (P : Doc) : renumOut (renumOut P) = renumOut P := by
  show (⟨renumNodes 0 (renumNodes 0 P.nodes),
        renumSpec (remapOf (renumOut P)) 0 (renumSpec (remapOf P) 0 P.elements), [],
        buildIdx [] 0 (renumNodes 0 P.nodes)⟩ : Doc) = renumOut P
  rw [renumNodes_idem, renumSpec_idem, buildIdx_congr _ P.nodes _ _ (renumNodes_length _ _)]
  rfl

/-- C8: applying the renumberer to its own output changes nothing — on any
document `Q` produced by `Renumber_Nodes`, a second application returns `Q`
itself, identical in every field. -/
theorem renumber_idempotent (P Q : Doc) (h : Renumber_Nodes P = .ok Q) :
    Renumber_Nodes Q = .ok Q := by
  have heq := renumber_eq P
  rw [h] at heq
  have hQ : Q = renumOut P := by
    injection heq
  subst hQ
  rw [renumber_eq, renumOut_idem]

/-- Witness for C8: `partDoc` renumbers to `partDocR`, and renumbering
`partDocR` again returns it unchanged. -/
theorem renumber_idempotent_witness :
    Renumber_Nodes partDoc = .ok partDocR ∧ Renumber_Nodes partDocR = .ok partDocR :=
  ⟨by rfl, renumber_idempotent partDoc partDocR (by rfl)⟩

/-! ## Dangling connectivity references -/

theorem mapLookup_buildRemap_notMem (l : List NodeRec) (m : List (Int × Int)) (j : Nat)
    (s : Int) (h : s ∉ l.map NodeRec.nid) :
    mapLookup (buildRemap m j l) s = mapLookup m s := by
  induction l generalizing m j with
  | nil => rfl
  | cons n l ih =>
    simp only [List.map_cons, List.mem_cons, not_or] at h
    rw [buildRemap, ih _ (j + 1) h.2, mapLookup_mapInsert, if_neg h.1]

/-- Counterexample to C5: `danglingDoc` has an element (part 7) whose slot
references node id 2, which is absent from the node table; nevertheless
`IsolatePart` returns normally — fabricating a node with id 2 and the
coordinates stored at position 0 — and `Renumber_Nodes` returns normally,
silently remapping the dangling slot to 0.  No error is raised. -/
theorem dangling_no_error_counterexample :
    (2 : Int) ∉ nodeIds danglingDoc ∧
    IsolatePart danglingDoc 7 =
      some ⟨[⟨2, 0, 0, 0⟩], [⟨1, 7, ⟨2, 0, 0, 0, 0, 0, 0, 0⟩⟩], [(1, 0)], [(2, 0)]⟩ ∧
    Renumber_Nodes danglingDoc =
      .ok ⟨[⟨1, 0, 0, 0⟩], [⟨1, 7, ⟨0, 0, 0, 0, 0, 0, 0, 0⟩⟩], [], [(1, 0)]⟩ :=
  ⟨by decide, by rfl, by rfl⟩

/-- C5 amended: on a document with a dangling connectivity reference (and a
node index whose positions stay inside the node list, which for the missing
id means the default position 0, so a nonempty node table), neither
transform raises an error: `IsolatePart` returns a document and
`Renumber_Nodes` returns `ok`, with every id absent from the node table
silently remapped to 0 by the renumbering table. -/
theorem dangling_silent (D : Doc) (p : Int)
    (hdangle : ∃ e ∈ D.elements, ∃ s ∈ e.conn.toList, s ≠ 0 ∧ s ∉ nodeIds D)
    (hlk : ∀ e ∈ D.elements, ∀ s ∈ e.conn.toList, s ≠ 0 →
      mapLookupD D.node_index s 0 < D.nodes.length) :
    (∃ P, IsolatePart D p = some P) ∧
    (∃ R, Renumber_Nodes D = .ok R) ∧
    (∀ s : Int, s ≠ 0 → s ∉ nodeIds D → lookupD0 (remapOf D) s = 0) := by
  refine ⟨?_, ⟨renumOut D, renumber_eq D⟩, ?_⟩
  · have hInv0 : IdxInv emptyDoc := by
      intro s
      simp [emptyDoc, mapLookup, nodeIds]
    obtain ⟨P, hloop, -, -, -⟩ := isolateLoop_spec D p D.elements emptyDoc hInv0 hlk
    exact ⟨P, hloop⟩
  · intro s hs0 hsm
    unfold lookupD0 remapOf mapLookupD
    rw [mapLookup_buildRemap_notMem D.nodes _ 0 s hsm]
    have h00 : ¬((0 : Int) = s) := fun hh => hs0 hh.symm
    simp [mapInsert, mapLookup, h00]

/-- Witness for the amended C5 at the concrete document `danglingDoc`. -/
theorem dangling_silent_witness :
    (∃ e ∈ danglingDoc.elements, ∃ s ∈ e.conn.toList, s ≠ 0 ∧ s ∉ nodeIds danglingDoc) ∧
    (∀ e ∈ danglingDoc.elements, ∀ s ∈ e.conn.toList, s ≠ 0 →
      mapLookupD danglingDoc.node_index s 0 < danglingDoc.nodes.length) ∧
    ((∃ P, IsolatePart danglingDoc 7 = some P) ∧
     (∃ R, Renumber_Nodes danglingDoc = .ok R) ∧
     (∀ s : Int, s ≠ 0 → s ∉ nodeIds danglingDoc → lookupD0 (remapOf danglingDoc) s = 0)) :=
  ⟨by decide, by decide, dangling_silent danglingDoc 7 (by decide) (by decide)⟩

/-! ## Concrete lexing and parsing runs -/

/-- C3 (evaluation of the code at the failing input): lexing
`"1,2.5,-3.2E-01\n"` yields Number "1" and then Comma forever — the comma
case of `NextSymbol` at line start returns the token without consuming the
character or leaving the line-start state, so the third symbol is Comma
again, not Number "2.5" as the specification requires. -/
theorem lexer_comma_bug_eval :
    lexStr 3 "1,2.5,-3.2E-01\n" =
      [⟨.number, "1"⟩, ⟨.comma, ","⟩, ⟨.comma, ","⟩] := by
  rfl

/-- Counterexample to C4: parsing `"*NODE\n1 0.0\n"` (a node record missing
its y and z coordinates) raises the syntax error citing line 3, not line 2
— the newline that reveals the missing coordinate has already advanced the
line counter.  The accumulated state is still empty. -/
theorem acceptNode_line_counterexample :
    runParse 32 emptyState "*NODE\n1 0.0\n" =
      some (.error (.syntaxError 3, emptyState)) ∧ (3 : Nat) ≠ 2 :=
  ⟨by rfl, by decide⟩

/-- C4 amended: parsing `"*NODE\n1 0.0\n"` raises a syntax error whose
diagnostic cites line 3 (the counter has already passed the record's
terminating newline), and no node with fabricated zero coordinates is
added — the document in the failed state is empty. -/
theorem acceptNode_missing_coords_line3 :
    runParse 32 emptyState "*NODE\n1 0.0\n" =
      some (.error (.syntaxError 3, emptyState)) := by
  rfl

/-- Counterexample to C6: parsing `"*NODE\n1 0 0 0\n2 0\n"` fails with a
syntax error on the second record, but the node parsed from the first
record remains stored in the accumulated document carried by the failure —
the partial document is not discarded. -/
theorem partial_doc_counterexample :
    parseView (runParse 32 emptyState "*NODE\n1 0 0 0\n2 0\n") =
      some (some (.syntaxError 4), [1], [], [(1, 0)], [], []) ∧
    ([(1 : Int)] ≠ ([] : List Int)) :=
  ⟨by rfl, by decide⟩

theorem addElement_ok_prefix (es : List ElemRec) (eid pid : Int) (c : Conn)
    (es' : List ElemRec) (h : AddElement es eid pid c = .ok es') : es <+: es' := by
  unfold AddElement at h
  split at h
  · exact Except.noConfusion h
  · cases Except.ok.inj h
    exact List.prefix_append _ _

/-- `AcceptNode` never discards records: a failing call carries the document
unchanged, a successful one only appends a node. -/
theorem acceptNode_grows (fuel : Nat) (obj : Doc) (L : KeyFileLexer)
    (r : Except (ParseError × Doc) (Doc × KeyFileLexer))
    (h : acceptNode fuel obj L = some r) :
    match r with
    | .error ed => ed.2 = obj
    | .ok dl => obj.nodes <+: dl.1.nodes ∧ obj.elements = dl.1.elements := by
  simp only [acceptNode] at h
  repeat' split at h
  any_goals exact Option.noConfusion h
  all_goals cases Option.some.inj h
  all_goals first
    | rfl
    | exact ⟨List.prefix_append _ _, rfl⟩

/-- `AcceptElement` never discards records: whatever the outcome, the
document it hands on extends the one it was given. -/
theorem acceptElement_grows (obj : Doc) (parts : List (Int × List ElemRec))
    (L : KeyFileLexer)
    (r : Except (ParseError × Doc × List (Int × List ElemRec))
         (Doc × List (Int × List ElemRec) × KeyFileLexer))
    (h : acceptElement obj parts L = r) :
    match r with
    | .error epd => obj.nodes = epd.2.1.nodes ∧ obj.elements <+: epd.2.1.elements
    | .ok dpl => obj.nodes = dpl.1.nodes ∧ obj.elements <+: dpl.1.elements := by
  simp only [acceptElement] at h
  repeat' split at h
  all_goals cases h
  all_goals try exact ⟨rfl, List.prefix_refl _⟩
  all_goals exact ⟨rfl, addElement_ok_prefix _ _ _ _ _ (by assumption)⟩

set_option maxHeartbeats 2000000 in
/-- The keyword loop never discards records: a run that ends in an error
carries a document extending, record by record, the document of every
configuration the run passed through. -/
theorem parseLoop_grows (fuel : Nat) :
    ∀ (pstate : Nat) (st : ParserState) (S : LexerSymbol) (L : KeyFileLexer)
      (e : ParseError × ParserState),
      parseLoop fuel pstate st S L = some (.error e) →
      st.obj.nodes <+: e.2.obj.nodes ∧ st.obj.elements <+: e.2.obj.elements := by
  induction fuel with
  | zero =>
    intro pstate st S L e h
    exact Option.noConfusion h
  | succ fuel ih =>
    intro pstate st S L e h
    simp only [parseLoop] at h
    repeat' split at h
    all_goals first
      | exact Option.noConfusion h
      | exact Except.noConfusion (Option.some.inj h)
      | (have hx := ih _ _ _ _ _ h
         exact hx)
      | (cases Except.error.inj (Option.some.inj h)
         exact ⟨List.prefix_refl _, List.prefix_refl _⟩)
      | (cases Except.error.inj (Option.some.inj h)
         rename_i e1 heq
         have hg : e1.2 = st.obj := acceptNode_grows fuel st.obj L _ heq
         refine ⟨?_, ?_⟩
         · show st.obj.nodes <+: e1.2.nodes
           rw [hg]
         · show st.obj.elements <+: e1.2.elements
           rw [hg])
      | (rename_i d heq
         have hg : st.obj.nodes <+: d.1.nodes ∧ st.obj.elements = d.1.elements :=
           acceptNode_grows fuel st.obj L _ heq
         have hih : d.1.nodes <+: e.2.obj.nodes ∧ d.1.elements <+: e.2.obj.elements :=
           ih _ _ _ _ _ h
         exact ⟨hg.1.trans hih.1, by rw [hg.2]; exact hih.2⟩)
      | (cases Except.error.inj (Option.some.inj h)
         rename_i e1 heq
         have hg : st.obj.nodes = e1.2.1.nodes ∧ st.obj.elements <+: e1.2.1.elements :=
           acceptElement_grows st.obj st.parts L _ heq
         refine ⟨?_, hg.2⟩
         rw [hg.1])
      | (rename_i d heq
         have hg : st.obj.nodes = d.1.nodes ∧ st.obj.elements <+: d.1.elements :=
           acceptElement_grows st.obj st.parts L _ heq
         have hih : d.1.nodes <+: e.2.obj.nodes ∧ d.1.elements <+: e.2.obj.elements :=
           ih _ _ _ _ _ h
         exact ⟨by rw [hg.1]; exact hih.1, hg.2.trans hih.2⟩)

/-- C6 amended: a syntax error aborts the parse of the current input with
no recovery, but the accumulated Document is never rolled back: from any
configuration a parse passes through, the state carried by a failing run
extends — record by record (list prefix) — the document accumulated at that
configuration, so records parsed from the input before the error remain
stored; concretely, parsing `"*NODE\n1 0 0 0\n2 0\n"` from an empty state
fails on the second record with node 1 retained. -/
theorem partial_doc_retained :
    (∀ (fuel pstate : Nat) (st : ParserState) (S : LexerSymbol) (L : KeyFileLexer)
       (e : ParseError × ParserState),
       parseLoop fuel pstate st S L = some (.error e) →
       st.obj.nodes <+: e.2.obj.nodes ∧ st.obj.elements <+: e.2.obj.elements) ∧
    parseView (runParse 32 emptyState "*NODE\n1 0 0 0\n2 0\n") =
      some (some (.syntaxError 4), [1], [], [(1, 0)], [], []) :=
  ⟨fun fuel => parseLoop_grows fuel, by rfl⟩

/-- Witness for the amended C6: from the mid-parse configuration `midState`
(node 1 already read) the failing run on the rest of the input carries node
1 out in the error state, which extends `midState`'s document. -/
theorem partial_doc_retained_witness :
    parseLoop 16 2 midState ⟨.number, "2"⟩ midLexer =
      some (.error (.syntaxError 4, midState)) ∧
    (midState.obj.nodes <+: midState.obj.nodes ∧
     midState.obj.elements <+: midState.obj.elements) :=
  ⟨by rfl,
   partial_doc_retained.1 16 2 midState ⟨.number, "2"⟩ midLexer
     (.syntaxError 4, midState) (by rfl)⟩

/-! ## The shape of Number tokens -/

theorem takeWhile_all_digits (l : List Char) :
    (l.takeWhile isDigitChar).all isDigitChar = true := by
  induction l with
  | nil => rfl
  | cons c r ih =>
    rw [List.takeWhile_cons]
    by_cases h : isDigitChar c = true
    · rw [if_pos h]
      simp [h, ih]
    · rw [if_neg h]
      rfl

theorem numDot_cases (l : List Char) : (numDot l).1 = [] ∨ (numDot l).1 = ['.'] := by
  unfold numDot
  split
  · exact Or.inr rfl
  · exact Or.inl rfl

theorem numEm_cases (l : List Char) :
    (numEm l).1 = [] ∨ (numEm l).1 = ['e'] ∨ (numEm l).1 = ['E'] := by
  unfold numEm
  split
  · rename_i e r
    split
    · rename_i h
      rcases h with rfl | rfl
      · exact Or.inr (Or.inl rfl)
      · exact Or.inr (Or.inr rfl)
    · exact Or.inl rfl
  · exact Or.inl rfl

theorem numSg_cases (l : List Char) :
    (numSg l).1 = [] ∨ (numSg l).1 = ['-'] ∨ (numSg l).1 = ['+'] := by
  unfold numSg
  split
  · rename_i s r
    split
    · rename_i h
      rcases h with rfl | rfl
      · exact Or.inr (Or.inl rfl)
      · exact Or.inr (Or.inr rfl)
    · exact Or.inl rfl
  · exact Or.inl rfl

/-- Counterexample to C9: lexing `"1-2"` produces the single Number token
`"1-2"`, in which the minus sign is included even though no exponent marker
precedes it; the token fails the shape the claim states
(`strictNumShape`, which follows the claim's grammar to the letter). -/
theorem number_shape_counterexample :
    lexStr 1 "1-2" = [⟨.number, "1-2"⟩] ∧ strictNumShape "1-2" = false :=
  ⟨by rfl, by rfl⟩

/-- C9 amended: every Number token produced by `AcceptNumber` decomposes as
the dispatch character (a digit or a minus), a digit run, an optional
point, a digit run, an optional exponent marker, an optional sign and a
final digit run — where the optional sign is consumed whenever it follows
the second digit run, whether or not an exponent marker precedes it. -/
theorem number_token_shape (c : Char) (rest : List Char)
    (hc : isDigitChar c = true ∨ c = '-') :
    ∃ d1 dot d2 em sg d3 : List Char,
      (acceptNumber c rest).1.type = .number ∧
      (acceptNumber c rest).1.symbol = String.mk (c :: (d1 ++ dot ++ d2 ++ em ++ sg ++ d3)) ∧
      d1.all isDigitChar = true ∧
      (dot = [] ∨ dot = ['.']) ∧
      d2.all isDigitChar = true ∧
      (em = [] ∨ em = ['e'] ∨ em = ['E']) ∧
      (sg = [] ∨ sg = ['-'] ∨ sg = ['+']) ∧
      d3.all isDigitChar = true := by
  refine ⟨spanDigitsTake rest,
          (numDot (spanDigitsDrop rest)).1,
          spanDigitsTake (numDot (spanDigitsDrop rest)).2,
          (numEm (spanDigitsDrop (numDot (spanDigitsDrop rest)).2)).1,
          (numSg (numEm (spanDigitsDrop (numDot (spanDigitsDrop rest)).2)).2).1,
          spanDigitsTake (numSg (numEm (spanDigitsDrop (numDot (spanDigitsDrop rest)).2)).2).2,
          rfl, rfl, ?_, ?_, ?_, ?_, ?_, ?_⟩
  · exact takeWhile_all_digits rest
  · exact numDot_cases _
  · exact takeWhile_all_digits _
  · exact numEm_cases _
  · exact numSg_cases _
  · exact takeWhile_all_digits _

/-- Witness for the amended C9: the decomposition at the dispatch character
`'1'` and the rest `"-2"`. -/
theorem number_token_shape_witness :
    (isDigitChar '1' = true ∨ '1' = '-') ∧
    (∃ d1 dot d2 em sg d3 : List Char,
      (acceptNumber '1' ['-', '2']).1.type = .number ∧
      (acceptNumber '1' ['-', '2']).1.symbol =
        String.mk ('1' :: (d1 ++ dot ++ d2 ++ em ++ sg ++ d3)) ∧
      d1.all isDigitChar = true ∧
      (dot = [] ∨ dot = ['.']) ∧
      d2.all isDigitChar = true ∧
      (em = [] ∨ em = ['e'] ∨ em = ['E']) ∧
      (sg = [] ∨ sg = ['-'] ∨ sg = ['+']) ∧
      d3.all isDigitChar = true) :=
  ⟨by decide, number_token_shape '1' ['-', '2'] (by decide)⟩

/-! ## The comma at line start -/

theorem skipComments_no_comment (c : Char) (r : List Char) (line : Nat) (h : ¬(c = '$')) :
    skipComments (c :: r) line = (c :: r, line) := by
  show (if c = '$' then skipCommentsF (c :: r).length (ignoreComment (c :: r)) (line + 1)
        else (c :: r, line)) = (c :: r, line)
  rw [if_neg h]

/-- C10: when `NextSymbol` runs in the line-start state on a pending comma,
it returns a Comma token without consuming any character, without leaving
the line-start state and without touching the line counter, so the
immediately following call returns Comma again from the same stream
position; and the number branch at line start (which is how such a
position arises after a leading number) leaves the lexer in the line-start
state. -/
theorem comma_linestart_behavior (L M : KeyFileLexer) (r : List Char) (c : Char)
    (r' : List Char)
    (hst : L.state = 0) (hin : L.input = ',' :: r)
    (hMst : M.state = 0) (hMin : M.input = c :: r')
    (hc : isDigitChar c = true ∨ c = '-') :
    (NextSymbol L).1 = ⟨.comma, ","⟩ ∧
    (NextSymbol L).2.input = L.input ∧
    (NextSymbol L).2.state = 0 ∧
    (NextSymbol L).2.current_line = L.current_line ∧
    (NextSymbol ((NextSymbol L).2)).1 = ⟨.comma, ","⟩ ∧
    (NextSymbol ((NextSymbol L).2)).2.input = L.input ∧
    (NextSymbol M).2.state = 0 := by
  obtain ⟨inp, st, cs, ln⟩ := L
  obtain ⟨inpM, stM, csM, lnM⟩ := M
  simp only at hst hin hMst hMin
  subst hst hin hMst hMin
  refine ⟨rfl, rfl, rfl, rfl, rfl, rfl, ?_⟩
  have hdollar : ¬(c = '$') := by
    rintro rfl
    rcases hc with h | h
    · exact absurd h (by decide)
    · exact absurd h (by decide)
  have hast : ¬(c = '*') := by
    rintro rfl
    rcases hc with h | h
    · exact absurd h (by decide)
    · exact absurd h (by decide)
  have hnl : ¬(c = '\n') := by
    rintro rfl
    rcases hc with h | h
    · exact absurd h (by decide)
    · exact absurd h (by decide)
  have hws : ¬(c = ' ' ∨ c = '\t' ∨ c = '\x0c' ∨ c = '\x0b') := by
    rintro (rfl | rfl | rfl | rfl) <;>
      rcases hc with h | h <;> exact absurd h (by decide)
  have hcm : ¬(c = ',') := by
    rintro rfl
    rcases hc with h | h
    · exact absurd h (by decide)
    · exact absurd h (by decide)
  show (NextSymbol ⟨c :: r', 0, csM, lnM⟩).2.state = 0
  unfold NextSymbol
  rw [if_pos rfl, skipComments_no_comment c r' lnM hdollar]
  simp only [if_neg hast, if_neg hnl, if_neg hws, if_neg hcm, if_pos hc]

/-- Witness for C10 at two concrete lexers: one whose pending character is
a comma, one whose pending character is a digit. -/
theorem comma_linestart_behavior_witness :
    (NextSymbol ⟨[',', '2'], 0, ⟨.number, "1"⟩, 1⟩).1 = ⟨.comma, ","⟩ ∧
    (NextSymbol ⟨[',', '2'], 0, ⟨.number, "1"⟩, 1⟩).2.input =
      (⟨[',', '2'], 0, ⟨.number, "1"⟩, 1⟩ : KeyFileLexer).input ∧
    (NextSymbol ⟨[',', '2'], 0, ⟨.number, "1"⟩, 1⟩).2.state = 0 ∧
    (NextSymbol ⟨[',', '2'], 0, ⟨.number, "1"⟩, 1⟩).2.current_line =
      (⟨[',', '2'], 0, ⟨.number, "1"⟩, 1⟩ : KeyFileLexer).current_line ∧
    (NextSymbol ((NextSymbol ⟨[',', '2'], 0, ⟨.number, "1"⟩, 1⟩).2)).1 = ⟨.comma, ","⟩ ∧
    (NextSymbol ((NextSymbol ⟨[',', '2'], 0, ⟨.number, "1"⟩, 1⟩).2)).2.input =
      (⟨[',', '2'], 0, ⟨.number, "1"⟩, 1⟩ : KeyFileLexer).input ∧
    (NextSymbol ⟨['1', ','], 0, ⟨.whitespace, ""⟩, 1⟩).2.state = 0 :=
  comma_linestart_behavior
    ⟨[',', '2'], 0, ⟨.number, "1"⟩, 1⟩ ⟨['1', ','], 0, ⟨.whitespace, ""⟩, 1⟩
    ['2'] '1' [','] rfl rfl rfl rfl (by decide)

/-! ## Duplicate element ids -/

theorem addElement_dup (es : List ElemRec) (eid pid : Int) (c : Conn)
    (hdup : ∃ e ∈ es, e.eid = eid) :
    AddElement es eid pid c = .error .duplicateElement := by
  unfold AddElement
  rw [if_pos]
  obtain ⟨e, he, heq⟩ := hdup
  exact List.any_eq_true.mpr ⟨e, he, decide_eq_true heq⟩

/-- C7: whenever an element record carries an id already stored in the
accumulated document — no matter which input file contributed it —
`Elements::AddElement` rejects it with the duplicate-id error, and
`AcceptElement` can never return successfully, so the duplicate element is
never silently accepted into the document. -/
theorem duplicate_element_rejected (obj : Doc) (parts : List (Int × List ElemRec))
    (L : KeyFileLexer) (eid pid : Int) (c : Conn)
    (hid : parseIntLit L.currentSymbol.symbol = some eid)
    (hdup : ∃ e ∈ obj.elements, e.eid = eid) :
    AddElement obj.elements eid pid c = .error .duplicateElement ∧
    exceptIsOk (acceptElement obj parts L) = false := by
  refine ⟨addElement_dup _ _ _ _ hdup, ?_⟩
  have hadd : ∀ (pid' : Int) (c' : Conn),
      AddElement obj.elements eid pid' c' = .error .duplicateElement :=
    fun pid' c' => addElement_dup _ _ _ _ hdup
  unfold acceptElement
  rw [hid]
  simp only [hadd]
  repeat' split
  all_goals rfl

/-- Witness for C7: the accumulated document `dupBaseDoc` already holds
element id 10; a second record with id 10 (as positioned in `dupLexer`) is
rejected — `AcceptElement` returns the duplicate-id error with the
document unchanged. -/
theorem duplicate_element_rejected_witness :
    parseIntLit dupLexer.currentSymbol.symbol = some 10 ∧
    (∃ e ∈ dupBaseDoc.elements, e.eid = 10) ∧
    (AddElement dupBaseDoc.elements 10 5 ⟨1, 2, 0, 0, 0, 0, 0, 0⟩ =
        .error .duplicateElement ∧
      exceptIsOk (acceptElement dupBaseDoc [] dupLexer) = false) ∧
    acceptElement dupBaseDoc [] dupLexer = .error (.duplicateElement, dupBaseDoc, []) :=
  ⟨by rfl, by decide,
   duplicate_element_rejected dupBaseDoc [] dupLexer 10 5 ⟨1, 2, 0, 0, 0, 0, 0, 0⟩
     (by rfl) (by decide),
   by rfl⟩
